import Mathlib

/-!
Verification of the GIF recording/export pipeline of a browser extension.

The definitions below are a shallow embedding of the JavaScript sources:
* `src/lib/gif.js` — `GIF`, `GIFEncoder`, `LZWEncoder`, `ByteArray`;
* `src/tools/media.js` — the per-tab recording registry
  (`startRecording`, `stopRecording`, `clearRecording`, `exportGif`);
* the offscreen document (`generateGif`, `drawClickIndicator`, …).

Pixel buffers are flat RGBA byte lists (`ImageData.data`), byte streams are
`List Nat` of values already masked by `& 0xFF` exactly where the source masks
them, and JavaScript `Map` objects are association lists with the `Map`
insertion-order semantics.
-/

namespace GifExt

/-- JS `ByteArray.writeShort(s)`: low byte then high byte, each masked. -/
def writeShort (s : Nat) : List Nat := [s &&& 255, (s >>> 8) &&& 255]

/-- The 24-bit color key `(r << 16) | (g << 8) | b` used by `_analyzePixels`
and `_writePixels`. -/
def colorKey (r g b : Nat) : Nat := (r <<< 16) ||| (g <<< 8) ||| b

/-- The stride-4 scan `for (i = 0; i < data.length; i += 4)` over the RGBA
buffer: one color key per pixel, the alpha byte is never read. -/
def pixelKeys : List Nat → List Nat
  | r :: g :: b :: _a :: rest => colorKey r g b :: pixelKeys rest
  | [] => []
  | [_] => []
  | [_, _] => []
  | [_, _, _] => []

/-- Replace every alpha byte (index ≡ 3 mod 4) by `f` of it; the RGB bytes are
untouched.  Used to state that the quantizer ignores alpha. -/
def alphaMap (f : Nat → Nat) : List Nat → List Nat
  | r :: g :: b :: a :: rest => r :: g :: b :: f a :: alphaMap f rest
  | [] => []
  | [r] => [r]
  | [r, g] => [r, g]
  | [r, g, b] => [r, g, b]

/-- `colorMap.set(key, (colorMap.get(key) || 0) + 1)`: a JS `Map` keeps an
existing key at its position and appends a new key at the end. -/
def histUpdate (h : List (Nat × Nat)) (k : Nat) : List (Nat × Nat) :=
  match h with
  | [] => [(k, 1)]
  | (k', c) :: t => if k' = k then (k', c + 1) :: t else (k', c) :: histUpdate t k

/-- The frequency histogram of `_analyzePixels`, in `Map` insertion order
(order of first occurrence during the scan). -/
def histogram (data : List Nat) : List (Nat × Nat) :=
  (pixelKeys data).foldl histUpdate []

/-- The comparator `.sort((a, b) => b[1] - a[1])` of `_analyzePixels` orders by
descending count; ECMAScript sorts are stable, so on entries enriched with
their original index (`(index, (key, count))`) the sort is exactly the linear
order: count descending, then original index ascending. -/
def rankRel (a b : Nat × Nat × Nat) : Prop :=
  b.2.2 < a.2.2 ∨ (a.2.2 = b.2.2 ∧ a.1 ≤ b.1)

instance : DecidableRel rankRel := fun a b => by unfold rankRel; exact inferInstance

instance : IsTotal (Nat × Nat × Nat) rankRel :=
  ⟨by intro a b; unfold rankRel; omega⟩

instance : IsTrans (Nat × Nat × Nat) rankRel :=
  ⟨by intro a b c; unfold rankRel; omega⟩

/-- Enrich each histogram entry with its position: `enrich i h` pairs the
entries of `h` with the indices `i, i+1, …`. -/
def enrich (i : Nat) : List (Nat × Nat) → List (Nat × Nat × Nat)
  | [] => []
  | (k, c) :: t => (i, k, c) :: enrich (i + 1) t

/-- The histogram entries, enriched with their insertion index and sorted by
the stable comparator (see `rankRel`). -/
def sortedEntries (data : List Nat) : List (Nat × Nat × Nat) :=
  List.insertionSort rankRel (enrich 0 (histogram data))

/-- `.slice(0, 256)` of the sorted entries, keeping only the color keys: the
frame's palette, most frequent color first. -/
def paletteKeys (data : List Nat) : List Nat :=
  ((sortedEntries data).take 256).map (fun e => e.2.1)

/-- The 768-byte `colorTab` (`new Uint8Array(256 * 3)` zero-initialised, then
3 bytes per selected color). -/
def colorTabBytes (data : List Nat) : List Nat :=
  (((paletteKeys data).map
      (fun c => [(c >>> 16) &&& 255, (c >>> 8) &&& 255, c &&& 255])).flatten)
    ++ List.replicate (768 - 3 * (paletteKeys data).length) 0

/-- Index of the first occurrence of `k`, if any. -/
def findIdx? (k : Nat) : List Nat → Option Nat
  | [] => none
  | x :: xs => if x = k then some 0 else (findIdx? k xs).map (· + 1)

/-- `this.colorMap.get(key) || 0` in `_writePixels`: the palette index of the
color, and `0` when the color was not selected. -/
def mapIndex (pal : List Nat) (k : Nat) : Nat := (findIdx? k pal).getD 0

/-- The indexed pixel sequence built by `_writePixels` before LZW encoding. -/
def indexedPixels (data : List Nat) : List Nat :=
  (pixelKeys data).map (mapIndex (paletteKeys data))

/-! ## LZW encoder (`LZWEncoder.encode`) -/

/-- The mutable locals of `LZWEncoder.encode`, plus the list of emitted codes
paired with the code width in force at each emission (the `output` closure
packs `code` at the current `codeSize`). -/
structure EncState where
  nextCode : Nat
  codeSize : Nat
  maxCode : Nat
  table : List (Nat × Nat)
  curCode : Nat
  outCodes : List (Nat × Nat)
deriving Repr, DecidableEq

/-- `table.get(key)`.  Between clears each key is `set` at most once, so the
list position of an entry is irrelevant to lookups and new entries are simply
consed. -/
def tableGet (t : List (Nat × Nat)) (k : Nat) : Option Nat :=
  match t with
  | [] => none
  | (k', v) :: rest => if k' = k then some v else tableGet rest k

/-- One iteration of the `for (i = 1; ...)` loop of `LZWEncoder.encode` on the
next pixel `p`. -/
def lzwStep (initCodeSize clearCode eofCode : Nat) (s : EncState) (p : Nat) :
    EncState :=
  let key := (s.curCode <<< 12) ||| p
  match tableGet s.table key with
  | some c => { s with curCode := c }
  | none =>
    let s1 := { s with outCodes := s.outCodes ++ [(s.curCode, s.codeSize)] }
    let s2 :=
      if s1.nextCode ≤ 4095 then
        let t := (key, s1.nextCode) :: s1.table
        let nc := s1.nextCode + 1
        if nc > s1.maxCode ∧ s1.codeSize < 12 then
          { s1 with table := t, nextCode := nc, codeSize := s1.codeSize + 1,
                    maxCode := (1 <<< (s1.codeSize + 1)) - 1 }
        else
          { s1 with table := t, nextCode := nc }
      else
        { s1 with
            outCodes := s1.outCodes ++ [(clearCode, s1.codeSize)],
            table := [], nextCode := eofCode + 1,
            codeSize := initCodeSize + 1,
            maxCode := (1 <<< (initCodeSize + 1)) - 1 }
    { s2 with curCode := p }

/-- The state right before the loop: `curCode = pixels[0]`, the clear code
already emitted at the initial width `initCodeSize + 1`. -/
def lzwInit (initCodeSize p0 : Nat) : EncState :=
  { nextCode := (1 <<< initCodeSize) + 2
    codeSize := initCodeSize + 1
    maxCode := (1 <<< (initCodeSize + 1)) - 1
    table := []
    curCode := p0
    outCodes := [(1 <<< initCodeSize, initCodeSize + 1)] }

/-- The invariant governing the encoder's adaptive code width: width between
`initCodeSize + 1` and 12, `maxCode = 2 ^ codeSize - 1`, and the next
assignable code never beyond 4096. -/
def EncInv (initCodeSize : Nat) (s : EncState) : Prop :=
  initCodeSize + 1 ≤ s.codeSize ∧ s.codeSize ≤ 12 ∧
    s.maxCode = 2 ^ s.codeSize - 1 ∧ s.nextCode ≤ 4096

instance (i : Nat) (s : EncState) : Decidable (EncInv i s) := by
  unfold EncInv
  infer_instance

/-- The complete code emission of `LZWEncoder.encode` on a non-empty pixel
list: clear code, the loop, the residual prefix code, the EOF code.
(`encode` is only ever invoked on `width * height ≥ 1` pixels.) -/
def lzwCodes (initCodeSize : Nat) (pixels : List Nat) : List (Nat × Nat) :=
  match pixels with
  | [] => []
  | p0 :: rest =>
    let clearCode := 1 <<< initCodeSize
    let eofCode := clearCode + 1
    let s := rest.foldl (lzwStep initCodeSize clearCode eofCode)
      (lzwInit initCodeSize p0)
    s.outCodes ++ [(s.curCode, s.codeSize), (eofCode, s.codeSize)]

/-- The `while (bits >= 8)` drain of the `output` closure, by structural
recursion on a fuel bound (each pass removes 8 bits, so `bits` passes always
suffice). -/
def drainBitsAux : Nat → Nat → Nat → List Nat → Nat × Nat × List Nat
  | 0, buf, bits, acc => (buf, bits, acc)
  | fuel + 1, buf, bits, acc =>
    if 8 ≤ bits then
      drainBitsAux fuel (buf >>> 8) (bits - 8) (acc ++ [buf &&& 255])
    else (buf, bits, acc)

/-- Move whole bytes from the bit buffer to the byte accumulator. -/
def drainBits (buf bits : Nat) (acc : List Nat) : Nat × Nat × List Nat :=
  drainBitsAux bits buf bits acc

/-- `buf |= code << bits; bits += codeSize` followed by the drain. -/
def packStep : Nat × Nat × List Nat → Nat × Nat → Nat × Nat × List Nat
  | (buf, bits, acc), (code, size) =>
    drainBits (buf ||| (code <<< bits)) (bits + size) acc

/-- LSB-first packing of the emitted codes into bytes, with the final
`if (bits > 0) accum.writeByte(buf & 0xFF)` flush. -/
def packCodes (codes : List (Nat × Nat)) : List Nat :=
  match codes.foldl packStep (0, 0, []) with
  | (buf, bits, acc) => if 0 < bits then acc ++ [buf &&& 255] else acc

/-- The sub-block writer loop body, by structural recursion on a fuel bound
(each chunk consumes at least one byte, so `l.length` passes suffice). -/
def subBlocksAux : Nat → List Nat → List Nat
  | 0, _ => []
  | fuel + 1, l =>
    if l = [] then []
    else
      let c := min 255 l.length
      c :: (l.take c ++ subBlocksAux fuel (l.drop 255))

/-- The sub-block writer: chunks of at most 255 bytes, each prefixed by its
length (the `for (i = 0; i < data.length; i += 255)` loop). -/
def subBlocks (l : List Nat) : List Nat := subBlocksAux l.length l

/-- `LZWEncoder` constructor: `colorDepth = Math.max(2, colorDepth)`,
`initCodeSize = colorDepth`. -/
def lzwEncoderInitCodeSize (colorDepth : Nat) : Nat := Nat.max 2 colorDepth

/-- `LZWEncoder.encode(out)`: the min-code-size byte, the sub-blocked packed
codes, the zero terminator. -/
def lzwEncodeBytes (initCodeSize : Nat) (pixels : List Nat) : List Nat :=
  initCodeSize :: (subBlocks (packCodes (lzwCodes initCodeSize pixels)) ++ [0])

/-- `GIFEncoder._writePixels`: map every pixel through the color map, then
`new LZWEncoder(width, height, pixels, 8).encode(out)` — the color depth is
the constant 8. -/
def writePixelsBytes (data : List Nat) : List Nat :=
  lzwEncodeBytes (lzwEncoderInitCodeSize 8) (indexedPixels data)

/-! ## A standard GIF LZW decoder

The repository ships no decoder; the round-trip property compares the encoder
against the standard GIF LZW decoding algorithm.  Modelled from the spec:
"a standard GIF LZW decoder" — the giflib semantics: codes are read
LSB-first at the current width, the width grows when the running count of
codes read since the last clear exceeds `2 ^ codeSize` (capped at 12), the
clear code resets the dictionary and width, and the EOF code ends the image.
-/

/-- The eight bits of a byte, least significant first. -/
def bitsOfByte (b : Nat) : List Bool :=
  (List.range 8).map (fun i => (b >>> i) &&& 1 = 1)

def byteBits (l : List Nat) : List Bool := (l.map bitsOfByte).flatten

/-- Value of a bit string, least significant bit first. -/
def bitsVal : List Bool → Nat
  | [] => 0
  | b :: rest => (if b then 1 else 0) + 2 * bitsVal rest

/-- Dictionary lookup: codes below the clear code denote themselves; dynamic
entries start at `clearCode + 2`. -/
def dEntry (clearCode : Nat) (dict : List (List Nat)) (c : Nat) :
    Option (List Nat) :=
  if c < clearCode then some [c]
  else dict.get? (c - clearCode - 2)

/-- The decoder loop.  `running` is the giflib `RunningCode` counter: it is
incremented per code read and the width grows when it exceeds
`2 ^ codeSize`. -/
def gifLzwLoop (mcs : Nat) : Nat → List Bool → List (List Nat) → Nat → Nat →
    Option (List Nat) → List Nat → Option (List Nat)
  | 0, _, _, _, _, _, _ => none
  | fuel + 1, bits, dict, codeSize, running, prev, out =>
    let clearCode := 2 ^ mcs
    if codeSize ≤ bits.length then
      let code := bitsVal (bits.take codeSize)
      let rest := bits.drop codeSize
      let running' := running + 1
      let codeSize' :=
        if 2 ^ codeSize < running' ∧ codeSize < 12 then codeSize + 1
        else codeSize
      if code = clearCode then
        gifLzwLoop mcs fuel rest [] (mcs + 1) (clearCode + 2) none out
      else if code = clearCode + 1 then
        some out
      else
        match prev with
        | none =>
          match dEntry clearCode dict code with
          | some s =>
            gifLzwLoop mcs fuel rest dict codeSize' running' (some s) (out ++ s)
          | none => none
        | some p =>
          match dEntry clearCode dict code with
          | some s =>
            gifLzwLoop mcs fuel rest (dict ++ [p ++ [s.headD 0]]) codeSize'
              running' (some s) (out ++ s)
          | none =>
            if code = clearCode + 2 + dict.length then
              let s := p ++ [p.headD 0]
              gifLzwLoop mcs fuel rest (dict ++ [s]) codeSize' running'
                (some s) (out ++ s)
            else none
    else none

/-- Decode a raw (de-blocked) LZW byte stream with minimum code size `mcs`. -/
def gifLzwDecode (mcs : Nat) (bytes : List Nat) : Option (List Nat) :=
  gifLzwLoop mcs (8 * bytes.length + 1) (byteBits bytes) [] (mcs + 1)
    (2 ^ mcs + 2) none []

/-- Sub-block ungrouping, by structural recursion on a fuel bound (each
block consumes at least its length byte, so `l.length` passes suffice). -/
def deblockAux : Nat → List Nat → Option (List Nat)
  | 0, _ => none
  | _, [] => none
  | _ + 1, 0 :: _ => some []
  | fuel + 1, (len + 1) :: rest =>
    if len + 1 ≤ rest.length
    then (deblockAux fuel (rest.drop (len + 1))).map (rest.take (len + 1) ++ ·)
    else none

/-- Undo the sub-block grouping: each block is a length byte followed by that
many data bytes; a zero length byte terminates the image data. -/
def deblock (l : List Nat) : Option (List Nat) := deblockAux l.length l

/-! ## Container assembler (`GIFEncoder` block writers, `GIF._encode`) -/

/-- A frame as handed to `GIFEncoder.addFrame`: RGBA buffer, dimensions and
the per-frame delay in milliseconds. -/
structure GifFrame where
  data : List Nat
  width : Nat
  height : Nat
  delayMs : Nat
deriving Repr, DecidableEq

/-- `setDelay(ms)`: `Math.round(ms / 10)` centiseconds (round half up). -/
def setDelayValue (ms : Nat) : Nat := (ms + 5) / 10

/-- `_writeLSD`: screen dimensions, packed byte `0xF7` (global table of 256
colors), background index 0, aspect ratio 0. -/
def lsdBytes (w h : Nat) : List Nat :=
  writeShort w ++ writeShort h ++ [0xF7, 0, 0]

/-- `_writeNetscapeExt`: application extension with the loop count. -/
def netscapeBytes (rep : Nat) : List Nat :=
  [0x21, 0xFF, 11] ++ [78, 69, 84, 83, 67, 65, 80, 69, 50, 46, 48]
    ++ [3, 1] ++ writeShort rep ++ [0]

/-- `_writeGraphicCtrlExt` with `transparent = null`: packed byte 0,
delay, transparent index 0, terminator. -/
def gceBytes (delay : Nat) : List Nat :=
  [0x21, 0xF9, 4, 0] ++ writeShort delay ++ [0, 0]

/-- `_writeImageDesc`: separator, position (0,0), dimensions, and the local
color table flag (`0x87`) for every frame but the first. -/
def imageDescBytes (w h : Nat) (useLocal : Bool) : List Nat :=
  [0x2C] ++ writeShort 0 ++ writeShort 0 ++ writeShort w ++ writeShort h
    ++ [if useLocal then 0x87 else 0]

/-- `GIFEncoder.addFrame`: on the first frame the logical screen descriptor,
global color table and Netscape block are emitted first; later frames carry a
local color table between descriptor and pixel data. -/
def addFrameBytes (first : Bool) (f : GifFrame) : List Nat :=
  (if first then
      lsdBytes f.width f.height ++ colorTabBytes f.data ++ netscapeBytes 0
    else [])
  ++ gceBytes (setDelayValue f.delayMs)
  ++ imageDescBytes f.width f.height (!first)
  ++ (if first then [] else colorTabBytes f.data)
  ++ writePixelsBytes f.data

/-- The frame loop of `GIF._encode` (the `firstFrame` flag flips after the
first frame). -/
def encodeFramesBytes : Bool → List GifFrame → List Nat
  | _, [] => []
  | first, f :: fs => addFrameBytes first f ++ encodeFramesBytes false fs

/-- `GIF._encode`: `GIF89a` header, all frames, trailer `0x3B`. -/
def encodeGifBytes (frames : List GifFrame) : List Nat :=
  [71, 73, 70, 56, 57, 97] ++ encodeFramesBytes true frames ++ [0x3B]

/-! ## A structural GIF reader

Modelled from the spec: "Decoded image-descriptor count equals the number of
frames passed to export" — a standard GIF reader walking the block structure,
collecting each image descriptor's dimensions. -/

/-- Skip a block's sub-block chain: length byte, that many data bytes,
repeated until a zero length byte. -/
def skipSubChain : List Nat → Option (List Nat)
  | [] => none
  | 0 :: rest => some rest
  | (len + 1) :: rest =>
    if h : len + 1 ≤ rest.length then skipSubChain (rest.drop (len + 1))
    else none
termination_by l => l.length
decreasing_by simp [List.length_drop]; omega

/-- Walk the block stream after header, screen descriptor and global color
table: `0x21` starts an extension (label, sub-blocks), `0x2C` an image
(descriptor, optional local color table, LZW data), `0x3B` ends the file.
Collects each image descriptor's width and height. -/
def imageDescsFrom (acc : List (Nat × Nat)) : List Nat → Option (List (Nat × Nat))
  | 59 :: _ => some acc.reverse
  | 33 :: _label :: rest =>
    match h : skipSubChain rest with
    | some r => imageDescsFrom acc r
    | none => none
  | 44 :: _l1 :: _l2 :: _t1 :: _t2 :: w1 :: w2 :: hh1 :: hh2 :: packed :: rest =>
    match hr1 : (if packed &&& 128 = 128
        then rest.drop (3 * 2 ^ ((packed &&& 7) + 1)) else rest) with
    | _mcs :: rest2 =>
      match hsk : skipSubChain rest2 with
      | some r => imageDescsFrom ((w1 + 256 * w2, hh1 + 256 * hh2) :: acc) r
      | none => none
    | [] => none
  | _ => none
termination_by l => l.length
decreasing_by
  all_goals
    have key : ∀ l r : List Nat, skipSubChain l = some r → r.length < l.length := by
      intro l
      induction l using skipSubChain.induct with
      | case1 => intro r hr; simp [skipSubChain] at hr
      | case2 rest => intro r hr; simp [skipSubChain] at hr; simp [← hr]
      | case3 len rest hle ih =>
        intro r hr
        rw [skipSubChain, dif_pos hle] at hr
        have := ih r hr
        simp [List.length_drop] at this ⊢
        omega
      | case4 len rest hle =>
        intro r hr
        rw [skipSubChain, dif_neg hle] at hr
        exact absurd hr (by simp)
  · exact Nat.lt_trans (key _ _ h) (by simp; omega)
  · have h1 := key _ _ hsk
    have h2l : rest2.length < rest.length := by
      have : (_mcs :: rest2).length ≤ rest.length := by
        rw [← hr1]
        split
        · simp [List.length_drop]
        · exact Nat.le_refl _
      simp at this
      omega
    simp
    omega

/-- The reader entry point: 6-byte signature, 7-byte logical screen
descriptor, global color table when flagged, then the block walk. -/
def imageDescriptors (l : List Nat) : Option (List (Nat × Nat)) :=
  match l with
  | _g :: _i :: _f :: _v1 :: _v2 :: _v3 ::
      _w1 :: _w2 :: _h1 :: _h2 :: packed :: _bg :: _ar :: rest =>
    let rest1 :=
      if packed &&& 128 = 128 then rest.drop (3 * 2 ^ ((packed &&& 7) + 1))
      else rest
    imageDescsFrom [] rest1
  | _ => none

/-! ## Specification-side notions for the quantizer claims -/

/-- The distinct color keys in order of first occurrence during the scan
(row-major, left-to-right, top-to-bottom on the flat buffer). -/
def firstOccs (l : List Nat) : List Nat :=
  l.foldl (fun acc k => if k ∈ acc then acc else acc ++ [k]) []

/-- Index of the first occurrence of `k` in `l` (the length of `l` when `k`
is absent). -/
def firstIdx (k : Nat) : List Nat → Nat
  | [] => 0
  | x :: xs => if x = k then 0 else firstIdx k xs + 1

/-- A 2×2 four-color checkerboard RGBA frame (red, green / blue, white):
four distinct colors, each pixel distinct from its neighbors. -/
def checkerData : List Nat :=
  [255, 0, 0, 255, 0, 255, 0, 255, 0, 0, 255, 255, 255, 255, 255, 255]

/-! ## Recording session registry (`src/tools/media.js`) -/

/-- One captured frame: `{dataUrl, timestamp, delay}` as pushed by
`addGifFrame` (the PNG data URL is opaque here). -/
structure FrameRec where
  dataUrl : List Nat
  timestamp : Nat
  delay : Nat
deriving Repr, DecidableEq

/-- One recorded action: `{type, x, y, frameIndex}` as pushed by
`addGifFrame`; `x`/`y` come from `actionInfo.coordinate?.[i]` and may be
absent. -/
structure ActionRec where
  type : Option String
  x : Option Nat
  y : Option Nat
  frameIndex : Nat
deriving Repr, DecidableEq

/-- One entry of the `gifRecordings` map:
`{frames, actions, startTime, isRecording}`. -/
structure Recording where
  frames : List FrameRec
  actions : List ActionRec
  startTime : Nat
  isRecording : Bool
deriving Repr, DecidableEq

/-- `gifRecordings.get(tabId)`. -/
def mapGet (m : List (Nat × Recording)) (k : Nat) : Option Recording :=
  match m with
  | [] => none
  | (k', v) :: rest => if k' = k then some v else mapGet rest k

/-- `gifRecordings.set(tabId, v)`: update in place, append when new. -/
def mapSet (m : List (Nat × Recording)) (k : Nat) (v : Recording) :
    List (Nat × Recording) :=
  match m with
  | [] => [(k, v)]
  | (k', v') :: rest =>
    if k' = k then (k', v) :: rest else (k', v') :: mapSet rest k v

/-- `gifRecordings.delete(tabId)`. -/
def mapDelete (m : List (Nat × Recording)) (k : Nat) : List (Nat × Recording) :=
  match m with
  | [] => []
  | (k', v') :: rest =>
    if k' = k then rest else (k', v') :: mapDelete rest k

/-- `startRecording(tabId)`: a fresh recording, overwriting any prior one. -/
def startRecording (tabId now : Nat) (m : List (Nat × Recording)) :
    List (Nat × Recording) :=
  mapSet m tabId ⟨[], [], now, true⟩

/-- Result of `stopRecording`. -/
structure StopResult where
  frameCount : Nat
  duration : Nat
deriving Repr, DecidableEq

/-- `stopRecording(tabId)`; `now` models `Date.now()`.  Throws when the map
has no entry; otherwise flips `isRecording` and reports the current frame
count and `now - startTime`. -/
def stopRecording (tabId now : Nat) (m : List (Nat × Recording)) :
    List (Nat × Recording) × Except String StopResult :=
  match mapGet m tabId with
  | none => (m, .error "No active recording for this tab")
  | some r =>
    (mapSet m tabId { r with isRecording := false },
      .ok ⟨r.frames.length, now - r.startTime⟩)

/-- `clearRecording(tabId)`. -/
def clearRecording (tabId : Nat) (m : List (Nat × Recording)) :
    List (Nat × Recording) :=
  mapDelete m tabId

/-- Result of a successful `exportGif`. -/
structure ExportResult where
  dataUrl : List Nat
  frameCount : Nat
deriving Repr, DecidableEq

/-- `exportGif(tabId, download, …)`: `if (!recording ||
recording.frames.length === 0) throw new Error('No frames recorded')`;
otherwise the frames are handed to the offscreen document — `render`, an
external collaborator that answers with the artifact bytes or with an
`{error}` field that `if (result.error) throw new Error(result.error)`
re-throws verbatim — then, when `download` is requested, the external
`chrome.downloads.download` call (`dlResult`) may itself fail, and on
success the result carries the artifact and the frame count.  The function
never writes to the map or the recording on any path. -/
def exportGif (render : List FrameRec → List ActionRec → Except String (List Nat))
    (download : Bool) (dlResult : Except String Unit)
    (tabId : Nat) (m : List (Nat × Recording)) :
    List (Nat × Recording) × Except String ExportResult :=
  match mapGet m tabId with
  | none => (m, .error "No frames recorded")
  | some r =>
    if r.frames.length = 0 then (m, .error "No frames recorded")
    else
      match render r.frames r.actions with
      | .error e => (m, .error e)
      | .ok bytes =>
        if download then
          match dlResult with
          | .error e => (m, .error e)
          | .ok _ => (m, .ok ⟨bytes, r.frames.length⟩)
        else (m, .ok ⟨bytes, r.frames.length⟩)

/-! ## Export option defaulting and quality (`media.js`, `generateGif`,
`GIF` constructor, `GIFEncoder.setQuality`) -/

/-- `options?.quality ?? 10` (applied in `exportGif` and again, idempotently,
in `generateGif`). -/
def qualityDefault (q : Option Int) : Int := q.getD 10

/-- `quality: options.quality || 10` in the `GIF` constructor: `0` is falsy
and is replaced by the default. -/
def gifCtorQuality (q : Int) : Int := if q = 0 then 10 else q

/-- `setQuality(quality)`: `Math.max(1, Math.min(30, quality))`. -/
def setQualityValue (q : Int) : Int := max 1 (min 30 q)

/-- The quality value the encoder ends up using for a supplied export
option: defaulting in `exportGif`/`generateGif`, the `GIF` constructor's
falsy check, then the clamp. -/
def effectiveQuality (q : Option Int) : Int :=
  setQualityValue (gifCtorQuality (qualityDefault (qualityDefault q)))

/-! ## Click indicator overlay (`generateGif`, `drawClickIndicator`) -/

/-- Does `needle` start `hay`? -/
def startsWithChars : List Char → List Char → Bool
  | [], _ => true
  | _ :: _, [] => false
  | a :: as, b :: bs => a = b && startsWithChars as bs

/-- Substring containment on character lists. -/
def hasSubChars (needle : List Char) : List Char → Bool
  | [] => needle.isEmpty
  | c :: t => startsWithChars needle (c :: t) || hasSubChars needle t

/-- `action.type?.includes('click')`: `false` for a missing type. -/
def typeIncludesClick : Option String → Bool
  | none => false
  | some s => hasSubChars "click".data s.data

/-- JS truthiness of a possibly-missing coordinate (`!action.x`): both
`undefined` and `0` are falsy. -/
def truthyCoord : Option Nat → Bool
  | none => false
  | some n => decide (n ≠ 0)

/-- Canvas primitives painted by the click indicator: the concentric stroked
ring, the filled inner dot, and the lighter ripple ring. -/
inductive Overlay where
  | ring (x y radius lineWidth : Nat) (light : Bool)
  | dot (x y radius : Nat)
deriving Repr, DecidableEq

/-- `drawClickIndicator(ctx, action)`: nothing when `!action.x || !action.y`
or when the type does not contain `'click'`; otherwise ring (radius 15,
line width 3) and dot (radius 5), plus a lighter ripple ring (radius 25,
line width 2) for double/triple click. -/
def clickIndicatorOverlays (a : ActionRec) : List Overlay :=
  if ¬ truthyCoord a.x ∨ ¬ truthyCoord a.y then []
  else if ¬ typeIncludesClick a.type then []
  else
    let x := a.x.getD 0
    let y := a.y.getD 0
    [.ring x y 15 3 false, .dot x y 5]
      ++ (if a.type = some "double_click" ∨ a.type = some "triple_click"
          then [.ring x y 25 2 true] else [])

/-- The `generateGif` guard for one frame:
`if (opts.showClickIndicators && action) drawClickIndicator(ctx, action)`. -/
def frameClickOverlays (showInd : Bool) (a? : Option ActionRec) :
    List Overlay :=
  if showInd then
    match a? with
    | some a => clickIndicatorOverlays a
    | none => []
  else []

/-- The click-variant action types as the spec enumerates them
("click variants" of the `actionType` enum). -/
def specClickVariant (t : Option String) : Bool :=
  t = some "left_click" || t = some "right_click" ||
    t = some "double_click" || t = some "triple_click"

/-- An example state: a stopped zero-frame recording. -/
def emptyRec : Recording := ⟨[], [], 0, false⟩

/-- An example state: a one-frame recording. -/
def oneFrameRec : Recording := ⟨[⟨[], 0, 100⟩], [], 0, true⟩

/-- An example state: a one-frame recording that was already stopped. -/
def stoppedRec : Recording := ⟨[⟨[], 0, 100⟩], [], 40, false⟩

/-! # Theorems -/

/-- `mapGet` after `mapSet` at the same key. -/
theorem mapGet_mapSet_self (m : List (Nat × Recording)) (k : Nat)
    (v : Recording) : mapGet (mapSet m k v) k = some v := by
  induction m with
  | nil => simp [mapSet, mapGet]
  | cons p rest ih =>
    obtain ⟨k', v'⟩ := p
    by_cases hk : k' = k
    · simp [mapSet, mapGet, hk]
    · simp [mapSet, mapGet, hk, ih]

/-- **C1**: LZW round trip on the 2×2 four-color checkerboard frame: the
quantizer keeps all 4 colors, the indexed pixels are pairwise distinct, and
a standard GIF LZW decoder run on the encoder's emitted code stream (first
byte = minimum code size, then the de-blocked data) returns exactly the
original indexed pixel sequence. -/
theorem lzw_roundtrip_checkerboard :
    (paletteKeys checkerData).length = 4 ∧
    indexedPixels checkerData = [0, 1, 2, 3] ∧
    (indexedPixels checkerData).Nodup ∧
    (deblock ((writePixelsBytes checkerData).tail)).bind
        (gifLzwDecode ((writePixelsBytes checkerData).headD 0))
      = some (indexedPixels checkerData) := by
  decide

/-- **C3 (counterexample)**: the 2×2 checkerboard frame selects a palette of
exactly 4 colors, so the claimed minimum code size `max(2, ⌈log₂ 4⌉)` is 2 —
but the first byte of the emitted image data is 8. -/
theorem initCodeSize_not_palette_log :
    (writePixelsBytes checkerData).headD 0 = 8 ∧
    (paletteKeys checkerData).length = 4 ∧
    Nat.max 2 (Nat.clog 2 (paletteKeys checkerData).length) = 2 ∧
    (writePixelsBytes checkerData).headD 0
      ≠ Nat.max 2 (Nat.clog 2 (paletteKeys checkerData).length) := by
  have h4 : (paletteKeys checkerData).length = 4 := by decide
  have hc : Nat.clog 2 (paletteKeys checkerData).length = 2 := by
    rw [h4, show (4 : Nat) = 2 ^ 2 by norm_num, Nat.clog_pow 2 2 (by norm_num)]
  refine ⟨by decide, h4, by rw [hc]; rfl, ?_⟩
  rw [hc]
  decide

/-- **C3 (amended)**: the LZW minimum code size written as the first byte of
every frame's image data is the constant `max 2 8 = 8` — `_writePixels`
always constructs the encoder with color depth 8, independently of the
palette size. -/
theorem initCodeSize_constant_eight (data : List Nat) :
    (writePixelsBytes data).headD 0 = lzwEncoderInitCodeSize 8 ∧
    lzwEncoderInitCodeSize 8 = 8 :=
  ⟨rfl, rfl⟩

/-- **C5 (counterexample)**: export against an absent session and export
against an existing session with zero frames fail with the *same* error
value `"No frames recorded"`; the two failures are not discriminated. -/
theorem export_errors_not_distinct :
    (exportGif (fun _ _ => .ok []) false (.ok ()) 7 []).2
      = .error "No frames recorded" ∧
    (exportGif (fun _ _ => .ok []) false (.ok ()) 7
        [(7, ⟨[], [], 0, false⟩)]).2
      = .error "No frames recorded" :=
  ⟨rfl, rfl⟩

/-- **C5 (amended)**: export against an absent session and export against a
session with frame count 0 both fail with the one undiscriminated error
`"No frames recorded"`, and in both cases no artifact bytes are produced;
every other export failure is an external error re-thrown verbatim (the
offscreen generation's `{error}` or the download call) and can arise only
on a session holding at least one frame; a successful export carries the
offscreen artifact and the session's frame count. -/
theorem export_failure_single_error
    (render : List FrameRec → List ActionRec → Except String (List Nat))
    (download : Bool) (dlResult : Except String Unit)
    (tabId : Nat) (m : List (Nat × Recording)) :
    ((mapGet m tabId = none ∨ (∃ r, mapGet m tabId = some r ∧ r.frames = [])) →
      (exportGif render download dlResult tabId m).2
        = .error "No frames recorded")
    ∧ (∀ e, (exportGif render download dlResult tabId m).2 = .error e →
        e ≠ "No frames recorded" →
        ∃ r, mapGet m tabId = some r ∧ r.frames ≠ [] ∧
          (render r.frames r.actions = .error e ∨
            (download = true ∧ dlResult = .error e)))
    ∧ (∀ res, (exportGif render download dlResult tabId m).2 = .ok res →
        ∃ r, mapGet m tabId = some r ∧ r.frames ≠ [] ∧
          render r.frames r.actions = .ok res.dataUrl ∧
          res.frameCount = r.frames.length) := by
  unfold exportGif
  cases hm : mapGet m tabId with
  | none => simp
  | some r =>
    by_cases hf : r.frames.length = 0
    · have he : r.frames = [] := List.length_eq_zero.mp hf
      simp [hf, he]
    · have he : r.frames ≠ [] := by
        intro h
        exact hf (by simp [h])
      cases hren : render r.frames r.actions with
      | error e' => simp [hf, he, hren]
      | ok bytes =>
        cases download with
        | false => simp [hf, he, hren]
        | true =>
          cases hdl : dlResult with
          | error e' => simp [hf, he, hren, hdl]
          | ok u => simp [hf, he, hren, hdl]

/-- Witness for C5 (amended): export against the empty registry fails with
the single error. -/
theorem export_failure_single_error_witness :
    (exportGif (fun _ _ => Except.ok []) false (Except.ok ()) 3 []).2
      = Except.error "No frames recorded" :=
  (export_failure_single_error (fun _ _ => Except.ok []) false (Except.ok ())
    3 []).1 (Or.inl rfl)

/-- **C6 (counterexample)**: the supplied quality 0 is not clamped to 1: the
`GIF` constructor's `options.quality || 10` replaces the falsy 0 with the
default 10, so the encoder uses 10 where the claim demands `clamp 0 = 1`. -/
theorem quality_zero_not_clamped :
    effectiveQuality (some 0) = 10 ∧ setQualityValue 0 = 1 ∧
      effectiveQuality (some 0) ≠ setQualityValue 0 := by
  refine ⟨rfl, rfl, by decide⟩

/-- **C6 (amended)**: every *nonzero* supplied integer quality is used as
its clamp into [1,30] — negative values behave as 1, values ≥ 31 behave as
30 — while the supplied value 0 is falsy and is replaced by the default 10
before clamping. -/
theorem quality_clamped_except_zero (q : Int) :
    (q ≠ 0 → effectiveQuality (some q) = max 1 (min 30 q))
    ∧ effectiveQuality (some 0) = 10
    ∧ (q < 0 → effectiveQuality (some q) = 1)
    ∧ (31 ≤ q → effectiveQuality (some q) = 30) := by
  unfold effectiveQuality qualityDefault gifCtorQuality setQualityValue
  refine ⟨?_, by norm_num, ?_, ?_⟩ <;> intro h
  · simp [h]
  · have : q ≠ 0 := by omega
    simp [this]
    omega
  · have : q ≠ 0 := by omega
    simp [this]
    omega

/-- Witness for C6 (amended) at qualities −5 and 40. -/
theorem quality_clamped_except_zero_witness :
    effectiveQuality (some (-5)) = 1 ∧ effectiveQuality (some 40) = 30 :=
  ⟨(quality_clamped_except_zero (-5)).2.2.1 (by norm_num),
   (quality_clamped_except_zero 40).2.2.2 (by norm_num)⟩

/-- **C7 (counterexample)**: a `left_click` annotation at the defined
coordinate (0, 100) — a click variant with a defined coordinate — receives
no click indicator: `!action.x` treats the defined coordinate 0 as
missing. -/
theorem click_indicator_zero_coordinate :
    specClickVariant (some "left_click") = true ∧
    (ActionRec.mk (some "left_click") (some 0) (some 100) 0).x ≠ none ∧
    (ActionRec.mk (some "left_click") (some 0) (some 100) 0).y ≠ none ∧
    frameClickOverlays true
      (some (ActionRec.mk (some "left_click") (some 0) (some 100) 0)) = [] := by
  decide

/-- **C7 (amended)**: with `showClickIndicators` enabled, a frame receives
the click-indicator overlay iff its matching annotation's action type
contains the substring `"click"` (this includes `left_click_drag`) and both
coordinates are defined *and nonzero*; the overlay is then the radius-15
ring (line width 3) and the radius-5 dot, plus the lighter radius-25 ripple
ring exactly for double/triple click.  Without a matching annotation nothing
is drawn. -/
theorem click_indicator_truthy_iff (showInd : Bool) (a : ActionRec) :
    (frameClickOverlays showInd (some a) ≠ [] ↔
      showInd = true ∧ truthyCoord a.x = true ∧ truthyCoord a.y = true ∧
        typeIncludesClick a.type = true)
    ∧ (∀ x y, showInd = true → a.x = some x → a.y = some y →
        x ≠ 0 → y ≠ 0 → typeIncludesClick a.type = true →
        frameClickOverlays showInd (some a) =
          [.ring x y 15 3 false, .dot x y 5]
            ++ (if a.type = some "double_click" ∨ a.type = some "triple_click"
                then [.ring x y 25 2 true] else []))
    ∧ frameClickOverlays showInd none = [] := by
  cases showInd with
  | false => simp [frameClickOverlays]
  | true =>
    refine ⟨?_, ?_, by simp [frameClickOverlays]⟩
    · unfold frameClickOverlays clickIndicatorOverlays
      by_cases hx : truthyCoord a.x <;> by_cases hy : truthyCoord a.y <;>
        by_cases ht : typeIncludesClick a.type <;>
        simp [hx, hy, ht]
    · intro x y _ hax hay hx0 hy0 ht
      have hx : truthyCoord a.x = true := by simp [hax, truthyCoord, hx0]
      have hy : truthyCoord a.y = true := by simp [hay, truthyCoord, hy0]
      unfold frameClickOverlays clickIndicatorOverlays
      simp [hx, hy, ht, hax, hay, truthyCoord, hx0, hy0]

/-- Witness for C7 (amended): a double click at (5, 6) draws ring, dot and
ripple. -/
theorem click_indicator_truthy_iff_witness :
    frameClickOverlays true
        (some (ActionRec.mk (some "double_click") (some 5) (some 6) 0)) =
      [.ring 5 6 15 3 false, .dot 5 6 5, .ring 5 6 25 2 true] := by
  have h := (click_indicator_truthy_iff true
    (ActionRec.mk (some "double_click") (some 5) (some 6) 0)).2.1
    5 6 rfl rfl rfl (by decide) (by decide) (by decide)
  rw [h]
  decide

/-- **C9**: `exportGif` is read-only on the registry: the map after the call
(successful or failed) is the input map, and the exported session's frames,
actions, start timestamp and recording flag are unchanged. -/
theorem export_read_only
    (render : List FrameRec → List ActionRec → Except String (List Nat))
    (download : Bool) (dlResult : Except String Unit)
    (tabId : Nat) (m : List (Nat × Recording)) :
    (exportGif render download dlResult tabId m).1 = m
    ∧ (∀ r, mapGet m tabId = some r →
        ∃ r', mapGet (exportGif render download dlResult tabId m).1 tabId
            = some r' ∧
          r'.frames = r.frames ∧ r'.actions = r.actions ∧
          r'.startTime = r.startTime ∧ r'.isRecording = r.isRecording) := by
  have h1 : (exportGif render download dlResult tabId m).1 = m := by
    unfold exportGif
    cases mapGet m tabId with
    | none => rfl
    | some r =>
      by_cases hf : r.frames.length = 0 <;>
        cases hren : render r.frames r.actions <;>
          cases download <;> cases hdl : dlResult <;> simp [hf, hren, hdl]
  refine ⟨h1, ?_⟩
  intro r hr
  exact ⟨r, by rw [h1, hr], rfl, rfl, rfl, rfl⟩

/-- Witness for C9 at a concrete one-session registry. -/
theorem export_read_only_witness :
    (exportGif (fun _ _ => Except.ok []) false (Except.ok ()) 5
      [(5, oneFrameRec)]).1 = [(5, oneFrameRec)] :=
  (export_read_only (fun _ _ => Except.ok []) false (Except.ok ()) 5
    [(5, oneFrameRec)]).1

/-- **C10**: `stopRecording` fails exactly when the registry has no session
for the tab id; on any existing session — in particular one whose
`isRecording` flag is already false — it succeeds with the current frame
count and a duration recomputed from the current time, stores the session
with the flag false and everything else unchanged, and an already-stopped
session is stored back entirely unchanged. -/
theorem stop_raises_iff (tabId now : Nat) (m : List (Nat × Recording)) :
    ((∃ e, (stopRecording tabId now m).2 = .error e) ↔ mapGet m tabId = none)
    ∧ (∀ r, mapGet m tabId = some r →
        (stopRecording tabId now m).2 = .ok ⟨r.frames.length, now - r.startTime⟩
        ∧ mapGet (stopRecording tabId now m).1 tabId
            = some { r with isRecording := false })
    ∧ (∀ r, mapGet m tabId = some r → r.isRecording = false →
        mapGet (stopRecording tabId now m).1 tabId = some r) := by
  unfold stopRecording
  cases hm : mapGet m tabId with
  | none => simp
  | some r =>
    refine ⟨by simp, fun r' hr' => ?_, fun r' hr' hflag => ?_⟩
    · obtain rfl : r = r' := by injection hr'
      exact ⟨rfl, by simp [mapGet_mapSet_self]⟩
    · obtain rfl : r = r' := by injection hr'
      have hrr : { r with isRecording := false } = r := by
        cases r
        simp_all
      simp [mapGet_mapSet_self, hrr]

/-- One encoder step preserves the width/next-code invariant. -/
theorem encInv_step (icz : Nat) (h11 : icz ≤ 11) (s : EncState) (p : Nat)
    (hs : EncInv icz s) :
    EncInv icz (lzwStep icz (1 <<< icz) ((1 <<< icz) + 1) s p) := by
  have hpow : (2 : Nat) ^ icz ≤ 2 ^ 11 := Nat.pow_le_pow_right (by norm_num) h11
  obtain ⟨h1, h2, h3, h4⟩ := hs
  cases htg : tableGet s.table ((s.curCode <<< 12) ||| p) with
  | some c =>
    simp only [lzwStep, htg]
    exact ⟨h1, h2, h3, h4⟩
  | none =>
    by_cases ha : s.nextCode ≤ 4095
    · by_cases hg : s.nextCode + 1 > s.maxCode ∧ s.codeSize < 12
      · simp [lzwStep, htg, ha, hg, EncInv, Nat.one_shiftLeft]
        omega
      · simp [lzwStep, htg, ha, hg, EncInv, Nat.one_shiftLeft]
        omega
    · norm_num at hpow
      simp [lzwStep, htg, ha, EncInv, Nat.one_shiftLeft]
      omega

/-- The invariant holds at the loop entry state. -/
theorem encInv_init (icz : Nat) (h11 : icz ≤ 11) (p0 : Nat) :
    EncInv icz (lzwInit icz p0) := by
  have hpow : (2 : Nat) ^ icz ≤ 2 ^ 11 := Nat.pow_le_pow_right (by norm_num) h11
  unfold EncInv lzwInit
  simp only [Nat.one_shiftLeft]
  norm_num at hpow ⊢
  omega

/-- The invariant is preserved along the whole pixel loop. -/
theorem encInv_foldl (icz : Nat) (h11 : icz ≤ 11) (s : EncState)
    (l : List Nat) (hs : EncInv icz s) :
    EncInv icz (List.foldl (lzwStep icz (1 <<< icz) ((1 <<< icz) + 1)) s l) := by
  induction l generalizing s with
  | nil => exact hs
  | cons p t ih => exact ih _ (encInv_step icz h11 s p hs)

/-- **C2**: the encoder's code width starts at `initCodeSize + 1`; along any
prefix of the pixel loop the width stays in `[initCodeSize + 1, 12]`, the
maximum representable code is `2 ^ codeSize − 1` and the assignable-code
counter stays ≤ 4096; on a dictionary miss with a free slot the width grows
by one exactly when the next assignable code would exceed the current
maximum representable code (and the width is still below 12); and when the
counter would exceed 4095 the encoder emits the clear code at the old width,
clears the table, and restores the initial width, maximum code and
next-code counter. -/
theorem lzw_encoder_state_invariant (icz : Nat) (h11 : icz ≤ 11)
    (p0 : Nat) (ps : List Nat) :
    (lzwInit icz p0).codeSize = icz + 1
    ∧ (∀ n : Nat,
        EncInv icz (List.foldl (lzwStep icz (1 <<< icz) ((1 <<< icz) + 1))
          (lzwInit icz p0) (ps.take n)))
    ∧ (∀ (s : EncState) (p : Nat), EncInv icz s →
        tableGet s.table ((s.curCode <<< 12) ||| p) = none →
        s.nextCode ≤ 4095 →
        ((lzwStep icz (1 <<< icz) ((1 <<< icz) + 1) s p).codeSize
            = s.codeSize + 1
          ↔ (s.maxCode < s.nextCode + 1 ∧ s.codeSize < 12)))
    ∧ (∀ (s : EncState) (p : Nat),
        tableGet s.table ((s.curCode <<< 12) ||| p) = none →
        4095 < s.nextCode →
        lzwStep icz (1 <<< icz) ((1 <<< icz) + 1) s p =
          ⟨(1 <<< icz) + 1 + 1, icz + 1, (1 <<< (icz + 1)) - 1, [], p,
            s.outCodes ++ [(s.curCode, s.codeSize), (1 <<< icz, s.codeSize)]⟩) := by
  refine ⟨rfl, ?_, ?_, ?_⟩
  · intro n
    exact encInv_foldl icz h11 _ _ (encInv_init icz h11 p0)
  · intro s p _hs htg ha
    by_cases hg : s.nextCode + 1 > s.maxCode ∧ s.codeSize < 12
    · simp [lzwStep, htg, ha, hg]
    · simp [lzwStep, htg, ha, hg]
  · intro s p htg ha
    have hna : ¬ s.nextCode ≤ 4095 := by omega
    simp [lzwStep, htg, hna]

/-- Witness for C2 at the encoder's actual parameters (`initCodeSize = 8`)
on a short pixel run. -/
theorem lzw_encoder_state_invariant_witness :
    (lzwInit 8 0).codeSize = 8 + 1 ∧
      EncInv 8 (List.foldl (lzwStep 8 (1 <<< 8) ((1 <<< 8) + 1)) (lzwInit 8 0)
        ([1, 2, 3].take 2)) :=
  ⟨(lzw_encoder_state_invariant 8 (by decide) 0 [1, 2, 3]).1,
   (lzw_encoder_state_invariant 8 (by decide) 0 [1, 2, 3]).2.1 2⟩

/-- Witness for C10: a second stop on an already-stopped one-frame session
succeeds, reports duration from the current time, and stores the session
unchanged. -/
theorem stop_raises_iff_witness :
    (stopRecording 2 100 [(2, stoppedRec)]).2 = .ok ⟨1, 100 - 40⟩ ∧
      mapGet (stopRecording 2 100 [(2, stoppedRec)]).1 2 = some stoppedRec :=
  ⟨((stop_raises_iff 2 100 [(2, stoppedRec)]).2.1 stoppedRec rfl).1,
   (stop_raises_iff 2 100 [(2, stoppedRec)]).2.2 stoppedRec rfl rfl⟩



theorem flatten_triples_length (l : List Nat) :
    ((l.map (fun c => [(c >>> 16) &&& 255, (c >>> 8) &&& 255, c &&& 255])).flatten).length
      = 3 * l.length := by
  induction l with
  | nil => simp
  | cons c t ih => simp [ih]; ring

theorem paletteKeys_le_256 (data : List Nat) :
    (paletteKeys data).length ≤ 256 := by
  unfold paletteKeys
  simp [List.length_take]

theorem colorTab_length (data : List Nat) :
    (colorTabBytes data).length = 768 := by
  have h := paletteKeys_le_256 data
  unfold colorTabBytes
  rw [List.length_append, flatten_triples_length, List.length_replicate]
  omega

theorem skipSubChain_zero (rest : List Nat) :
    skipSubChain (0 :: rest) = some rest := by
  simp [skipSubChain]

theorem skipSubChain_chunk (n : Nat) (blk rest : List Nat)
    (hb : blk.length = n + 1) :
    skipSubChain ((n + 1) :: (blk ++ rest)) = skipSubChain rest := by
  have hle : n + 1 ≤ (blk ++ rest).length := by
    simp [hb]
  simp [skipSubChain, hle, List.drop_left' hb]
  intro hcon
  exact absurd hcon (by omega)

theorem skipSubChain_subBlocksAux (fuel : Nat) :
    ∀ (l rest : List Nat), l.length ≤ fuel →
      skipSubChain (subBlocksAux fuel l ++ (0 :: rest)) = some rest := by
  induction fuel with
  | zero =>
    intro l rest hl
    have hnil : l = [] := List.length_eq_zero.mp (Nat.le_zero.mp hl)
    simp [hnil, subBlocksAux, skipSubChain_zero]
  | succ fuel ih =>
    intro l rest hl
    by_cases hnil : l = []
    · simp [hnil, subBlocksAux, skipSubChain_zero]
    · have hlen : 1 ≤ l.length := by
        cases l with
        | nil => exact absurd rfl hnil
        | cons a t => simp
      obtain ⟨c, hc⟩ : ∃ c, min 255 l.length = c + 1 :=
        ⟨min 255 l.length - 1, by omega⟩
      rw [subBlocksAux]
      simp only [hnil, if_false, hc]
      rw [List.cons_append, List.append_assoc]
      rw [skipSubChain_chunk c (l.take (c + 1)) _
        (by simp [List.length_take]; omega)]
      exact ih (l.drop 255) rest (by simp [List.length_drop]; omega)

theorem skipSubChain_subBlocks (l rest : List Nat) :
    skipSubChain (subBlocks l ++ (0 :: rest)) = some rest :=
  skipSubChain_subBlocksAux l.length l rest (Nat.le_refl _)

theorem parsed_dim (w : Nat) :
    (w &&& 255) + 256 * ((w >>> 8) &&& 255) = w % 65536 := by
  have h1 := Nat.and_pow_two_sub_one_eq_mod w 8
  have h2 := Nat.and_pow_two_sub_one_eq_mod (w >>> 8) 8
  rw [Nat.shiftRight_eq_div_pow] at h2 ⊢
  norm_num at h1 h2 ⊢
  rw [h1, h2]
  omega

theorem imageDescsFrom_gce (acc : List (Nat × Nat)) (d : Nat)
    (rest : List Nat) :
    imageDescsFrom acc (gceBytes d ++ rest) = imageDescsFrom acc rest := by
  unfold gceBytes writeShort
  simp only [List.cons_append, List.nil_append, List.append_assoc]
  rw [imageDescsFrom]
  have hskip : skipSubChain (4 :: 0 :: (d &&& 255) :: ((d >>> 8) &&& 255)
      :: 0 :: 0 :: rest) = some rest := by
    have h1 := skipSubChain_chunk 3 [0, d &&& 255, (d >>> 8) &&& 255, 0]
      (0 :: rest) (by simp)
    simpa [skipSubChain_zero] using h1
  rw [hskip]


theorem imageDescsFrom_netscape (acc : List (Nat × Nat)) (rest : List Nat) :
    imageDescsFrom acc (netscapeBytes 0 ++ rest) = imageDescsFrom acc rest := by
  unfold netscapeBytes writeShort
  norm_num [List.cons_append, List.nil_append, List.append_assoc]
  rw [imageDescsFrom]
  have hskip : skipSubChain (11 :: 78 :: 69 :: 84 :: 83 :: 67 :: 65 :: 80
      :: 69 :: 50 :: 46 :: 48 :: 3 :: 1 :: 0 :: 0 :: 0 :: rest) = some rest := by
    have h1 := skipSubChain_chunk 10
      [78, 69, 84, 83, 67, 65, 80, 69, 50, 46, 48]
      (3 :: 1 :: 0 :: 0 :: 0 :: rest) (by simp)
    have h2 := skipSubChain_chunk 2 [1, 0, 0] (0 :: rest) (by simp)
    simp only [List.cons_append, List.nil_append] at h1 h2
    rw [h1, h2, skipSubChain_zero]
  rw [hskip]

theorem imageDescsFrom_imageFirst (acc : List (Nat × Nat)) (w h : Nat)
    (data rest : List Nat) :
    imageDescsFrom acc
        (imageDescBytes w h false ++ (writePixelsBytes data ++ rest))
      = imageDescsFrom ((w % 65536, h % 65536) :: acc) rest := by
  unfold imageDescBytes writeShort writePixelsBytes lzwEncodeBytes
    lzwEncoderInitCodeSize
  simp only [List.cons_append, List.nil_append, List.append_assoc,
    Bool.false_eq_true, if_false]
  rw [imageDescsFrom]
  rw [if_neg (by norm_num : ¬((0 : Nat) &&& 128 = 128))]
  split
  next mcs rest2 hr1 =>
    injection hr1 with hm ht
    subst ht
    rw [skipSubChain_subBlocks]
    split
    next r hsk =>
      injection hsk with hr
      subst hr
      rw [parsed_dim w, parsed_dim h]
    next hsk => exact absurd hsk (by simp)
  next hr1 => exact absurd hr1 (by simp)

theorem imageDescsFrom_imageLocal (acc : List (Nat × Nat)) (w h : Nat)
    (data data2 rest : List Nat) :
    imageDescsFrom acc
        (imageDescBytes w h true ++ (colorTabBytes data
          ++ (writePixelsBytes data2 ++ rest)))
      = imageDescsFrom ((w % 65536, h % 65536) :: acc) rest := by
  unfold imageDescBytes writeShort writePixelsBytes lzwEncodeBytes
    lzwEncoderInitCodeSize
  simp only [List.cons_append, List.nil_append, List.append_assoc, if_true]
  rw [imageDescsFrom]
  rw [if_pos (by decide : ((135 : Nat) &&& 128 = 128))]
  rw [show (3 * 2 ^ (((135 : Nat) &&& 7) + 1) : Nat) = 768 by decide]
  rw [List.drop_left'
    (by rw [colorTab_length] : (colorTabBytes data).length = 768)]
  split
  next mcs rest2 hr1 =>
    injection hr1 with hm ht
    subst ht
    rw [skipSubChain_subBlocks]
    split
    next r hsk =>
      injection hsk with hr
      subst hr
      rw [parsed_dim w, parsed_dim h]
    next hsk => exact absurd hsk (by simp)
  next hr1 => exact absurd hr1 (by simp)

theorem imageDescsFrom_trailer (acc : List (Nat × Nat)) :
    imageDescsFrom acc [59] = some acc.reverse := by
  rw [imageDescsFrom]

theorem imageDescsFrom_loop (fs : List GifFrame) (acc : List (Nat × Nat)) :
    imageDescsFrom acc (encodeFramesBytes false fs ++ [59])
      = some (acc.reverse
          ++ fs.map (fun f => (f.width % 65536, f.height % 65536))) := by
  induction fs generalizing acc with
  | nil => simp [encodeFramesBytes, imageDescsFrom_trailer]
  | cons f t ih =>
    rw [encodeFramesBytes]
    unfold addFrameBytes
    simp only [Bool.false_eq_true, if_false, Bool.not_false, if_true,
      List.nil_append, List.append_assoc]
    rw [imageDescsFrom_gce, imageDescsFrom_imageLocal, ih]
    simp


theorem export_image_descriptor_count (frames : List GifFrame)
    (hne : frames ≠ []) :
    imageDescriptors (encodeGifBytes frames)
      = some (frames.map (fun f => (f.width % 65536, f.height % 65536)))
    ∧ (imageDescriptors (encodeGifBytes frames)).map List.length
      = some frames.length := by
  obtain ⟨f0, fs, rfl⟩ := List.exists_cons_of_ne_nil hne
  have hmain : imageDescriptors (encodeGifBytes (f0 :: fs))
      = some ((f0 :: fs).map (fun f => (f.width % 65536, f.height % 65536))) := by
    unfold encodeGifBytes encodeFramesBytes addFrameBytes lsdBytes writeShort
    simp only [if_true, Bool.not_true, Bool.false_eq_true, if_false,
      List.cons_append, List.nil_append, List.append_assoc]
    rw [imageDescriptors]
    rw [if_pos (by decide : ((247 : Nat) &&& 128 = 128))]
    rw [show (3 * 2 ^ (((247 : Nat) &&& 7) + 1) : Nat) = 768 by decide]
    rw [List.drop_left'
      (by rw [colorTab_length] : (colorTabBytes f0.data).length = 768)]
    rw [imageDescsFrom_netscape, imageDescsFrom_gce,
      imageDescsFrom_imageFirst, imageDescsFrom_loop]
    simp
  exact ⟨hmain, by rw [hmain]; simp⟩

theorem export_image_descriptor_count_witness :
    imageDescriptors (encodeGifBytes [⟨checkerData, 2, 2, 100⟩])
      = some [(2, 2)]
    ∧ (imageDescriptors (encodeGifBytes [⟨checkerData, 2, 2, 100⟩])).map
        List.length = some 1 := by
  have h := export_image_descriptor_count [⟨checkerData, 2, 2, 100⟩] (by simp)
  simpa using h


/-- Membership in the `firstOccs` fold. -/
theorem mem_firstOccs_foldl (l : List Nat) :
    ∀ (acc : List Nat) (x : Nat),
      x ∈ l.foldl (fun acc k => if k ∈ acc then acc else acc ++ [k]) acc ↔
        x ∈ acc ∨ x ∈ l := by
  induction l with
  | nil => simp
  | cons k t ih =>
    intro acc x
    by_cases hk : k ∈ acc
    · rw [List.foldl_cons, if_pos hk, ih]
      constructor
      · rintro (h | h)
        · exact Or.inl h
        · exact Or.inr (List.mem_cons_of_mem _ h)
      · rintro (h | h)
        · exact Or.inl h
        · rcases List.mem_cons.mp h with rfl | h
          · exact Or.inl hk
          · exact Or.inr h
    · rw [List.foldl_cons, if_neg hk, ih]
      simp [or_assoc, List.mem_cons]

/-- A color is in `firstOccs l` exactly when it occurs in `l`. -/
theorem mem_firstOccs (l : List Nat) (x : Nat) :
    x ∈ firstOccs l ↔ x ∈ l := by
  unfold firstOccs
  rw [mem_firstOccs_foldl]
  simp

/-- The `firstOccs` fold preserves `Nodup`. -/
theorem nodup_firstOccs_foldl (l : List Nat) :
    ∀ (acc : List Nat), acc.Nodup →
      (l.foldl (fun acc k => if k ∈ acc then acc else acc ++ [k]) acc).Nodup := by
  induction l with
  | nil => exact fun acc h => h
  | cons k t ih =>
    intro acc hacc
    by_cases hk : k ∈ acc
    · rw [List.foldl_cons, if_pos hk]
      exact ih acc hacc
    · rw [List.foldl_cons, if_neg hk]
      refine ih _ ?_
      simp [List.nodup_append, hacc, hk]

/-- `firstOccs` has no duplicates. -/
theorem nodup_firstOccs (l : List Nat) : (firstOccs l).Nodup :=
  nodup_firstOccs_foldl l [] List.nodup_nil

/-- `firstOccs` after appending one element. -/
theorem firstOccs_append_singleton (l : List Nat) (k : Nat) :
    firstOccs (l ++ [k]) =
      if k ∈ l then firstOccs l else firstOccs l ++ [k] := by
  unfold firstOccs
  rw [List.foldl_append]
  simp only [List.foldl_cons, List.foldl_nil]
  by_cases hk : k ∈ l
  · rw [if_pos, if_pos hk]
    rw [mem_firstOccs_foldl]
    simp [hk]
  · rw [if_neg, if_neg hk]
    rw [mem_firstOccs_foldl]
    simp [hk]

/-- A member's first-occurrence index is below the length. -/
theorem firstIdx_lt_length (x : Nat) (l : List Nat) (hx : x ∈ l) :
    firstIdx x l < l.length := by
  induction l with
  | nil => cases hx
  | cons a t ih =>
    by_cases ha : a = x
    · simp [firstIdx, ha]
    · rcases List.mem_cons.mp hx with rfl | hx'
      · exact absurd rfl ha
      · simp only [firstIdx, if_neg ha, List.length_cons]
        exact Nat.succ_lt_succ (ih hx')

/-- First-occurrence index across an append. -/
theorem firstIdx_append (x : Nat) (l l' : List Nat) :
    firstIdx x (l ++ l') =
      if x ∈ l then firstIdx x l else l.length + firstIdx x l' := by
  induction l with
  | nil => simp [firstIdx]
  | cons a t ih =>
    by_cases ha : a = x
    · simp [firstIdx, ha]
    · have hmem : (x ∈ a :: t) ↔ (x ∈ t) := by
        constructor
        · intro h
          rcases List.mem_cons.mp h with rfl | h'
          · exact absurd rfl ha
          · exact h'
        · exact fun h => List.mem_cons_of_mem _ h
      simp only [List.cons_append, firstIdx, if_neg ha, List.length_cons,
        hmem, List.append_eq]
      rw [ih]
      by_cases hx : x ∈ t
      · rw [if_pos hx, if_pos hx]
      · rw [if_neg hx, if_neg hx]
        omega

/-- Along `firstOccs l`, first-occurrence indices in `l` strictly increase. -/
theorem pairwise_firstIdx_firstOccs (l : List Nat) :
    (firstOccs l).Pairwise (fun a b => firstIdx a l < firstIdx b l) := by
  induction l using List.reverseRecOn with
  | nil => simp [firstOccs]
  | append_singleton t k ih =>
    rw [firstOccs_append_singleton]
    by_cases hk : k ∈ t
    · rw [if_pos hk]
      refine ih.imp_of_mem ?_
      intro a b ha hb hab
      have ha' : a ∈ t := (mem_firstOccs t a).mp ha
      have hb' : b ∈ t := (mem_firstOccs t b).mp hb
      rw [firstIdx_append, firstIdx_append, if_pos ha', if_pos hb']
      exact hab
    · rw [if_neg hk]
      rw [List.pairwise_append]
      refine ⟨ih.imp_of_mem ?_, by simp, ?_⟩
      · intro a b ha hb hab
        have ha' : a ∈ t := (mem_firstOccs t a).mp ha
        have hb' : b ∈ t := (mem_firstOccs t b).mp hb
        rw [firstIdx_append, firstIdx_append, if_pos ha', if_pos hb']
        exact hab
      · intro a ha b hb
        have ha' : a ∈ t := (mem_firstOccs t a).mp ha
        have hb : b = k := by simpa using hb
        subst hb
        rw [firstIdx_append, firstIdx_append, if_pos ha', if_neg hk]
        have := firstIdx_lt_length a t ha'
        omega

/-- `findIdx?` finds exactly the first-occurrence index of a present key. -/
theorem findIdx?_eq (k : Nat) (l : List Nat) :
    findIdx? k l = if k ∈ l then some (firstIdx k l) else none := by
  induction l with
  | nil => simp [findIdx?]
  | cons a t ih =>
    by_cases ha : a = k
    · simp [findIdx?, firstIdx, ha]
    · have hmem : (k ∈ a :: t) ↔ (k ∈ t) := by
        constructor
        · intro h
          rcases List.mem_cons.mp h with rfl | h'
          · exact absurd rfl ha
          · exact h'
        · exact fun h => List.mem_cons_of_mem _ h
      simp only [findIdx?, if_neg ha, ih, firstIdx, hmem]
      by_cases hk : k ∈ t <;> simp [hk]

/-- The alpha channel never reaches the color keys. -/
theorem pixelKeys_alphaMap (f : Nat → Nat) (data : List Nat) :
    pixelKeys (alphaMap f data) = pixelKeys data := by
  induction data using alphaMap.induct f with
  | case1 r g b a rest ih => simp [alphaMap, pixelKeys, ih]
  | case2 => simp [alphaMap, pixelKeys]
  | case3 r => simp [alphaMap, pixelKeys]
  | case4 r g => simp [alphaMap, pixelKeys]
  | case5 r g b => simp [alphaMap, pixelKeys]


/-- `histUpdate` on a keyed map with distinct keys: bump the present key's
count in place, or append a fresh `(k, 1)` entry. -/
theorem histUpdate_map (L : List Nat) (c : Nat → Nat) (k : Nat)
    (hL : L.Nodup) :
    histUpdate (L.map (fun x => (x, c x))) k =
      if k ∈ L then L.map (fun x => (x, if x = k then c x + 1 else c x))
      else L.map (fun x => (x, c x)) ++ [(k, 1)] := by
  induction L with
  | nil => simp [histUpdate]
  | cons a t ih =>
    obtain ⟨hat, hnd⟩ := List.nodup_cons.mp hL
    by_cases hak : a = k
    · subst hak
      rw [if_pos (List.mem_cons_self a t)]
      simp only [List.map_cons, histUpdate, if_true]
      congr 1
      apply List.map_congr_left
      intro x hx
      rw [if_neg (fun (h : x = a) => hat (h ▸ hx))]
    · simp only [List.map_cons, histUpdate, if_neg hak]
      rw [ih hnd]
      by_cases hk : k ∈ t
      · rw [if_pos hk, if_pos (List.mem_cons_of_mem a hk)]
      · rw [if_neg hk,
          if_neg (fun h => by rcases List.mem_cons.mp h with h' | h'
                              exacts [hak h'.symm, hk h'])]
        rw [List.cons_append]

/-- The histogram of a key stream: the keys in first-occurrence order, each
paired with its total count. -/
theorem histogram_foldl_spec (ks : List Nat) :
    ks.foldl histUpdate [] =
      (firstOccs ks).map (fun k => (k, ks.count k)) := by
  induction ks using List.reverseRecOn with
  | nil => simp [firstOccs]
  | append_singleton t k ih =>
    rw [List.foldl_append, List.foldl_cons, List.foldl_nil, ih]
    rw [histUpdate_map _ _ _ (nodup_firstOccs t)]
    rw [firstOccs_append_singleton]
    by_cases hk : k ∈ t
    · rw [if_pos ((mem_firstOccs t k).mpr hk), if_pos hk]
      apply List.map_congr_left
      intro x hx
      rw [List.count_append]
      by_cases hxk : x = k
      · subst hxk
        simp
      · simp [hxk]
    · rw [if_neg (fun h => hk ((mem_firstOccs t k).mp h)), if_neg hk]
      rw [List.map_append]
      congr 1
      · apply List.map_congr_left
        intro x hx
        have hx' : x ∈ t := (mem_firstOccs t x).mp hx
        have hxk : x ≠ k := fun h => hk (h ▸ hx')
        rw [List.count_append]
        simp [hxk]
      · simp [List.count_append, List.count_eq_zero.mpr hk]

/-- The histogram in terms of first occurrences and counts. -/
theorem histogram_spec (data : List Nat) :
    histogram data = (firstOccs (pixelKeys data)).map
      (fun k => (k, (pixelKeys data).count k)) :=
  histogram_foldl_spec (pixelKeys data)


/-- Decomposition of membership in `enrich`. -/
theorem enrich_mem (h : List (Nat × Nat)) :
    ∀ (i : Nat) (e : Nat × Nat × Nat), e ∈ enrich i h →
      i ≤ e.1 ∧ e.1 - i < h.length ∧ h.get? (e.1 - i) = some e.2 := by
  induction h with
  | nil => intro i e he; cases he
  | cons p t ih =>
    obtain ⟨k, c⟩ := p
    intro i e he
    rcases List.mem_cons.mp he with rfl | he'
    · simp
    · obtain ⟨h1, h2, h3⟩ := ih (i + 1) e he'
      refine ⟨by omega, by simp; omega, ?_⟩
      have hsplit : e.1 - i = (e.1 - (i + 1)) + 1 := by omega
      rw [hsplit]
      simpa using h3

/-- Conversely, every indexed entry of `h` appears in `enrich`. -/
theorem enrich_get (h : List (Nat × Nat)) :
    ∀ (i j : Nat) (x : Nat × Nat), h.get? j = some x →
      (i + j, x) ∈ enrich i h := by
  induction h with
  | nil => intro i j x hj; simp at hj
  | cons p t ih =>
    obtain ⟨k, c⟩ := p
    intro i j x hj
    cases j with
    | zero =>
      simp only [List.get?_cons_zero, Option.some.injEq] at hj
      subst hj
      simp [enrich]
    | succ j' =>
      simp only [List.get?_cons_succ] at hj
      have hmem := ih (i + 1) j' x hj
      rw [show i + (j' + 1) = (i + 1) + j' by omega]
      exact List.mem_cons_of_mem _ hmem

/-- `enrich` keeps the length. -/
theorem enrich_length (h : List (Nat × Nat)) :
    ∀ i : Nat, (enrich i h).length = h.length := by
  induction h with
  | nil => intro i; rfl
  | cons p t ih =>
    obtain ⟨k, c⟩ := p
    intro i
    simp [enrich, ih (i + 1)]

/-- The enriched entries are pairwise distinct (their indices increase). -/
theorem enrich_nodup (h : List (Nat × Nat)) :
    ∀ i : Nat, (enrich i h).Nodup := by
  induction h with
  | nil => intro i; simp [enrich]
  | cons p t ih =>
    obtain ⟨k, c⟩ := p
    intro i
    rw [enrich, List.nodup_cons]
    refine ⟨fun hmem => ?_, ih (i + 1)⟩
    have := (enrich_mem t (i + 1) _ hmem).1
    simp at this


/-- Every sorted entry `(i, k, c)` satisfies: `k` is the `i`-th color in
first-occurrence order and `c` is its count in the pixel stream. -/
theorem sortedEntries_mem (data : List Nat) (e : Nat × Nat × Nat)
    (he : e ∈ sortedEntries data) :
    (firstOccs (pixelKeys data)).get? e.1 = some e.2.1
    ∧ e.2.2 = (pixelKeys data).count e.2.1
    ∧ e.1 < (firstOccs (pixelKeys data)).length := by
  have he' : e ∈ enrich 0 (histogram data) :=
    ((List.perm_insertionSort rankRel _).mem_iff).mp he
  obtain ⟨h0, hlt, hget⟩ := enrich_mem _ 0 e he'
  rw [Nat.sub_zero] at hlt hget
  rw [histogram_spec data] at hget hlt
  rw [List.get?_map] at hget
  cases hku : (firstOccs (pixelKeys data)).get? e.1 with
  | none =>
    rw [hku] at hget
    cases hget
  | some k =>
    rw [hku, Option.map_some'] at hget
    have hk : (k, (pixelKeys data).count k) = e.2 := by
      exact Option.some.inj hget
    have hlen : e.1 < (firstOccs (pixelKeys data)).length := by
      simpa using hlt
    refine ⟨?_, ?_, hlen⟩
    · rw [← hk]
    · rw [← hk]

/-- The palette keys, most frequent first, ties broken by first-scan
order. -/
theorem palette_ranking (data : List Nat) :
    (paletteKeys data).Pairwise (fun a b =>
      (pixelKeys data).count b < (pixelKeys data).count a
      ∨ ((pixelKeys data).count a = (pixelKeys data).count b
          ∧ firstIdx a (pixelKeys data) < firstIdx b (pixelKeys data))) := by
  have hsorted : (sortedEntries data).Pairwise rankRel :=
    List.sorted_insertionSort rankRel _
  have hnodup : (sortedEntries data).Nodup :=
    ((List.perm_insertionSort rankRel _).nodup_iff).mpr (enrich_nodup _ 0)
  have htake := (hsorted.and hnodup).sublist (List.take_sublist 256 _)
  unfold paletteKeys
  rw [List.pairwise_map]
  refine htake.imp_of_mem ?_
  intro a b ha hb hab
  obtain ⟨hrel, hne⟩ := hab
  obtain ⟨hga, hca, hla⟩ :=
    sortedEntries_mem data a ((List.take_sublist 256 _).subset ha)
  obtain ⟨hgb, hcb, hlb⟩ :=
    sortedEntries_mem data b ((List.take_sublist 256 _).subset hb)
  unfold rankRel at hrel
  rcases hrel with hlt | ⟨heq, hle⟩
  · left
    rw [hca] at hlt
    rw [hcb] at hlt
    exact hlt
  · have hij : a.1 < b.1 := by
      rcases Nat.lt_or_ge a.1 b.1 with hx | hx
      · exact hx
      · exfalso
        apply hne
        have h1 : a.1 = b.1 := by omega
        have h2 : a.2.1 = b.2.1 := by
          rw [h1] at hga
          rw [hgb] at hga
          exact (Option.some.inj hga).symm
        have h3 : a.2.2 = b.2.2 := by
          rw [hca, hcb, h2]
        exact Prod.ext h1 (Prod.ext h2 h3)
    right
    constructor
    · rw [hca, hcb] at heq
      exact heq
    · have hp := pairwise_firstIdx_firstOccs (pixelKeys data)
      rw [List.pairwise_iff_get] at hp
      have hga' : (firstOccs (pixelKeys data)).get ⟨a.1, hla⟩ = a.2.1 := by
        have := List.get?_eq_get hla
        rw [this] at hga
        exact Option.some.inj hga
      have hgb' : (firstOccs (pixelKeys data)).get ⟨b.1, hlb⟩ = b.2.1 := by
        have := List.get?_eq_get hlb
        rw [this] at hgb
        exact Option.some.inj hgb
      have := hp ⟨a.1, hla⟩ ⟨b.1, hlb⟩ hij
      rw [hga', hgb'] at this
      exact this


/-- Every palette key occurs in the pixel stream. -/
theorem palette_subset (data : List Nat) :
    ∀ k ∈ paletteKeys data, k ∈ pixelKeys data := by
  intro k hk
  unfold paletteKeys at hk
  obtain ⟨e, he, rfl⟩ := List.mem_map.mp hk
  obtain ⟨hg, _, _⟩ :=
    sortedEntries_mem data e ((List.take_sublist 256 _).subset he)
  exact (mem_firstOccs _ _).mp (List.get?_mem hg)

/-- With at most 256 distinct colors, every color is selected. -/
theorem palette_total (data : List Nat)
    (hle : (firstOccs (pixelKeys data)).length ≤ 256) :
    ∀ k ∈ pixelKeys data, k ∈ paletteKeys data := by
  intro k hk
  have hk' : k ∈ firstOccs (pixelKeys data) := (mem_firstOccs _ _).mpr hk
  obtain ⟨j, hj⟩ := List.mem_iff_get?.mp hk'
  have hh : (histogram data).get? j
      = some (k, (pixelKeys data).count k) := by
    rw [histogram_spec, List.get?_map, hj, Option.map_some']
  have hmem : ((0 + j : Nat), (k, (pixelKeys data).count k))
      ∈ enrich 0 (histogram data) :=
    enrich_get _ 0 j _ hh
  have hmem' : ((j : Nat), (k, (pixelKeys data).count k))
      ∈ sortedEntries data := by
    unfold sortedEntries
    rw [(List.perm_insertionSort rankRel _).mem_iff]
    simpa using hmem
  have hlen : (sortedEntries data).length ≤ 256 := by
    unfold sortedEntries
    rw [(List.perm_insertionSort rankRel _).length_eq, enrich_length,
      histogram_spec, List.length_map]
    exact hle
  unfold paletteKeys
  rw [List.take_of_length_le hlen]
  exact List.mem_map.mpr ⟨_, hmem', rfl⟩

/-- Top-256 separation: every color of the frame that was *not* selected
ranks strictly below every selected palette color — lower count, or an
equal count with a later first occurrence. -/
theorem palette_top (data : List Nat) :
    ∀ k ∈ pixelKeys data, k ∉ paletteKeys data →
      ∀ p ∈ paletteKeys data,
        (pixelKeys data).count k < (pixelKeys data).count p
        ∨ ((pixelKeys data).count p = (pixelKeys data).count k
            ∧ firstIdx p (pixelKeys data) < firstIdx k (pixelKeys data)) := by
  intro k hk hknot p hp
  -- the excluded color's sorted entry
  have hk' : k ∈ firstOccs (pixelKeys data) := (mem_firstOccs _ _).mpr hk
  obtain ⟨j, hj⟩ := List.mem_iff_get?.mp hk'
  have hh : (histogram data).get? j
      = some (k, (pixelKeys data).count k) := by
    rw [histogram_spec, List.get?_map, hj, Option.map_some']
  have hmemk : ((j : Nat), (k, (pixelKeys data).count k))
      ∈ sortedEntries data := by
    unfold sortedEntries
    rw [(List.perm_insertionSort rankRel _).mem_iff]
    simpa using enrich_get _ 0 j _ hh
  -- it cannot sit among the first 256 entries, so it sits in the rest
  have hknotin : ((j : Nat), (k, (pixelKeys data).count k))
      ∉ (sortedEntries data).take 256 := by
    intro hmem
    exact hknot (List.mem_map.mpr ⟨_, hmem, rfl⟩)
  have hkdrop : ((j : Nat), (k, (pixelKeys data).count k))
      ∈ (sortedEntries data).drop 256 := by
    have hsplit := List.take_append_drop 256 (sortedEntries data)
    rcases List.mem_append.mp (by rw [hsplit]; exact hmemk) with h | h
    · exact absurd h hknotin
    · exact h
  -- the selected color's sorted entry, among the first 256
  obtain ⟨ep, hep, hepk⟩ := List.mem_map.mp hp
  -- sortedness across the take/drop split
  have hcross : rankRel ep ((j : Nat), (k, (pixelKeys data).count k)) := by
    have hs : (sortedEntries data).Pairwise rankRel :=
      List.sorted_insertionSort rankRel _
    rw [← List.take_append_drop 256 (sortedEntries data),
      List.pairwise_append] at hs
    exact hs.2.2 ep hep _ hkdrop
  -- decode both entries
  obtain ⟨hgp, hcp, hlp⟩ :=
    sortedEntries_mem data ep ((List.take_sublist 256 _).subset hep)
  obtain ⟨hgk, _hck, hlk⟩ :=
    sortedEntries_mem data ((j : Nat), (k, (pixelKeys data).count k)) hmemk
  subst hepk
  have hpk : ep.2.1 ≠ k := fun h => hknot (h ▸ hp)
  unfold rankRel at hcross
  rcases hcross with hlt | ⟨heq, hle⟩
  · left
    rw [hcp] at hlt
    exact hlt
  · right
    constructor
    · rw [hcp] at heq
      exact heq
    · have hij : ep.1 < j := by
        rcases Nat.lt_or_ge ep.1 j with hx | hx
        · exact hx
        · exfalso
          have h1 : ep.1 = j := by
            simp at hle
            omega
          rw [h1] at hgp
          rw [hgk] at hgp
          exact hpk (Option.some.inj hgp).symm
      have hpfi := pairwise_firstIdx_firstOccs (pixelKeys data)
      rw [List.pairwise_iff_get] at hpfi
      have hgp' : (firstOccs (pixelKeys data)).get ⟨ep.1, hlp⟩ = ep.2.1 := by
        have hx := List.get?_eq_get hlp
        rw [hx] at hgp
        exact Option.some.inj hgp
      have hgk' : (firstOccs (pixelKeys data)).get ⟨j, hlk⟩ = k := by
        have hx := List.get?_eq_get hlk
        rw [hx] at hgk
        exact Option.some.inj hgk
      have hfin := hpfi ⟨ep.1, hlp⟩ ⟨j, hlk⟩ hij
      rw [hgp', hgk'] at hfin
      exact hfin

/-- The pixel mapping: the exact palette index for selected colors, 0 for
the rest. -/
theorem indexedPixels_eq (data : List Nat) :
    indexedPixels data = (pixelKeys data).map
      (fun k => if k ∈ paletteKeys data
        then firstIdx k (paletteKeys data) else 0) := by
  unfold indexedPixels mapIndex
  apply List.map_congr_left
  intro k _hk
  rw [findIdx?_eq]
  by_cases h : k ∈ paletteKeys data <;> simp [h]

/-- The quantizer never reads the alpha channel. -/
theorem quantizer_alpha_invariant (f : Nat → Nat) (data : List Nat) :
    paletteKeys (alphaMap f data) = paletteKeys data
    ∧ indexedPixels (alphaMap f data) = indexedPixels data := by
  have h := pixelKeys_alphaMap f data
  have hp : paletteKeys (alphaMap f data) = paletteKeys data := by
    unfold paletteKeys sortedEntries histogram
    rw [h]
  refine ⟨hp, ?_⟩
  unfold indexedPixels
  rw [h, hp]

/-- **C4**: the quantizer selects at most 256 colors; every selected color
occurs in the frame and, when the frame has at most 256 distinct colors,
every color is selected; the selection is genuinely the *top* 256 — every
color left out ranks strictly below every selected color (lower count, or
equal count with a later first occurrence); the palette is ranked by
descending frequency with ties broken by first-occurrence (scan) order;
every pixel maps to its color's palette index and colors outside the
palette map to index 0 (no nearest-color search); and the alpha channel is
ignored throughout. -/
theorem quantizer_top256_frequency_ranking (data : List Nat) :
    (paletteKeys data).length ≤ 256
    ∧ (∀ k ∈ paletteKeys data, k ∈ pixelKeys data)
    ∧ ((firstOccs (pixelKeys data)).length ≤ 256 →
        ∀ k ∈ pixelKeys data, k ∈ paletteKeys data)
    ∧ (∀ k ∈ pixelKeys data, k ∉ paletteKeys data →
        ∀ p ∈ paletteKeys data,
          (pixelKeys data).count k < (pixelKeys data).count p
          ∨ ((pixelKeys data).count p = (pixelKeys data).count k
              ∧ firstIdx p (pixelKeys data) < firstIdx k (pixelKeys data)))
    ∧ (paletteKeys data).Pairwise (fun a b =>
        (pixelKeys data).count b < (pixelKeys data).count a
        ∨ ((pixelKeys data).count a = (pixelKeys data).count b
            ∧ firstIdx a (pixelKeys data) < firstIdx b (pixelKeys data)))
    ∧ indexedPixels data = (pixelKeys data).map
        (fun k => if k ∈ paletteKeys data
          then firstIdx k (paletteKeys data) else 0)
    ∧ (∀ f, paletteKeys (alphaMap f data) = paletteKeys data
        ∧ indexedPixels (alphaMap f data) = indexedPixels data) :=
  ⟨paletteKeys_le_256 data, palette_subset data, palette_total data,
   palette_top data, palette_ranking data, indexedPixels_eq data,
   fun f => quantizer_alpha_invariant f data⟩

/-- Witness for C4 on the checkerboard frame: the length bound and, via the
≤-256-distinct-colors case, membership of the red key in the palette. -/
theorem quantizer_top256_frequency_ranking_witness :
    (paletteKeys checkerData).length ≤ 256
    ∧ 16711680 ∈ paletteKeys checkerData := by
  have h := quantizer_top256_frequency_ranking checkerData
  exact ⟨h.1, h.2.2.1 (by decide) 16711680 (by decide)⟩

end GifExt
